import Mathlib

/-!
Verification of the Black-Scholes option pricer in `okok_app.py`.

The source file has two parts:
* an `OPTION_TYPE` enumeration and an abstract `OptionPricingModel` whose
  `calculate_option_price` dispatches on a string selector to one of two
  pricing hooks, returning the sentinel `-1` for an unrecognized selector;
* a concrete `BlackScholesModel` storing five parameters at construction
  (`S`, `K`, `T = days_to_maturity / 365`, `r`, `sigma`) whose hooks compute
  the closed-form Black-Scholes call and put prices using the standard
  normal cumulative distribution function (`scipy.stats.norm.cdf`).

The numeric computations (double-precision floating point in the source)
are embedded over the exact reals; `norm.cdf(x, 0.0, 1.0)` is embedded as
the integral of the standard normal density over `(-∞, x]`.
-/

open MeasureTheory Set

namespace Okok

/-- The standard normal probability density, `exp (-t^2/2) / sqrt (2*pi)`. -/
noncomputable def stdNormalPDF (t : ℝ) : ℝ :=
  (Real.sqrt (2 * Real.pi))⁻¹ * Real.exp (-t ^ 2 / 2)

/-- Embedding of `scipy.stats.norm.cdf(x, 0.0, 1.0)`: the standard normal
cumulative distribution function (mean 0, standard deviation 1). -/
noncomputable def norm_cdf (x : ℝ) : ℝ := ∫ t in Iic x, stdNormalPDF t

/-- The `OPTION_TYPE` enumeration from the source: two members. -/
inductive OPTION_TYPE : Type
  | CALL_OPTION : OPTION_TYPE
  | PUT_OPTION : OPTION_TYPE
deriving DecidableEq

/-- The `value` attribute of each `OPTION_TYPE` member: its display string. -/
def OPTION_TYPE.value : OPTION_TYPE → String
  | .CALL_OPTION => "Call Option"
  | .PUT_OPTION => "Put Option"

/-- A value that a caller may pass as the `option_type` argument of
`calculate_option_price`: either a raw string, or an `OPTION_TYPE` enum
member itself (Python allows any value here). -/
inductive Selector : Type
  | str : String → Selector
  | enumMember : OPTION_TYPE → Selector
deriving DecidableEq

/-- Python equality between a selector value and a plain string: a string
compares by its characters; an `OPTION_TYPE` enum member is never equal to
a string (`Enum` members do not compare equal to their `.value`). -/
def Selector.eqString : Selector → String → Bool
  | .str s, v => s = v
  | .enumMember _, _ => false

/-- The abstract `OptionPricingModel` interface: every concrete model
supplies the two pricing hooks `_calculate_call_option_price` and
`_calculate_put_option_price`, each a pure function of the model's stored
parameters (they take no arguments in the source). -/
structure OptionPricingModel : Type where
  calculate_call_option_price : ℝ
  calculate_put_option_price : ℝ

/-- Embedding of `OptionPricingModel.calculate_option_price`: compare the
selector with `OPTION_TYPE.CALL_OPTION.value`; on a match return the call
hook's result; else compare with `OPTION_TYPE.PUT_OPTION.value`; on a match
return the put hook's result; otherwise return `-1`. -/
def calculate_option_price (m : OptionPricingModel) (option_type : Selector) : ℝ :=
  if option_type.eqString OPTION_TYPE.CALL_OPTION.value then
    m.calculate_call_option_price
  else if option_type.eqString OPTION_TYPE.PUT_OPTION.value then
    m.calculate_put_option_price
  else
    -1

/-- The five fields stored by `BlackScholesModel.__init__`. -/
structure BlackScholesModel : Type where
  S : ℝ
  K : ℝ
  T : ℝ
  r : ℝ
  sigma : ℝ

/-- Embedding of `BlackScholesModel.__init__`: stores the spot, strike, rate and
volatility unchanged and the time to maturity as `days_to_maturity / 365`. -/
noncomputable def BlackScholesModel.init (underlying_spot_price strike_price
    days_to_maturity risk_free_rate sigma : ℝ) : BlackScholesModel :=
  { S := underlying_spot_price
    K := strike_price
    T := days_to_maturity / 365
    r := risk_free_rate
    sigma := sigma }

/-- The local `d1` computed by both pricing hooks (source lines 70 and 85):
`(np.log(S/K) + (r + 0.5*sigma**2)*T) / (sigma*np.sqrt(T))`. -/
noncomputable def BlackScholesModel.d1 (m : BlackScholesModel) : ℝ :=
  (Real.log (m.S / m.K) + (m.r + 0.5 * m.sigma ^ 2) * m.T) /
    (m.sigma * Real.sqrt m.T)

/-- The local `d2` computed by both pricing hooks (source lines 74 and 89):
`(np.log(S/K) + (r - 0.5*sigma**2)*T) / (sigma*np.sqrt(T))`. -/
noncomputable def BlackScholesModel.d2 (m : BlackScholesModel) : ℝ :=
  (Real.log (m.S / m.K) + (m.r - 0.5 * m.sigma ^ 2) * m.T) /
    (m.sigma * Real.sqrt m.T)

/-- Embedding of `BlackScholesModel._calculate_call_option_price`:
`S*cdf(d1) - K*exp(-r*T)*cdf(d2)`. -/
noncomputable def BlackScholesModel.calculate_call_option_price
    (m : BlackScholesModel) : ℝ :=
  m.S * norm_cdf m.d1 - m.K * Real.exp (-m.r * m.T) * norm_cdf m.d2

/-- Embedding of `BlackScholesModel._calculate_put_option_price`:
`K*exp(-r*T)*cdf(-d2) - S*cdf(-d1)`. -/
noncomputable def BlackScholesModel.calculate_put_option_price
    (m : BlackScholesModel) : ℝ :=
  m.K * Real.exp (-m.r * m.T) * norm_cdf (-m.d2) - m.S * norm_cdf (-m.d1)

/-- A `BlackScholesModel` seen through the abstract interface: the pair of
its two hook results, as dispatched by `calculate_option_price`. -/
noncomputable def BlackScholesModel.toPricingModel
    (m : BlackScholesModel) : OptionPricingModel :=
  { calculate_call_option_price := m.calculate_call_option_price
    calculate_put_option_price := m.calculate_put_option_price }

/-- The quantity `d1` as written in the spec:
`( ln(S / K) + (r + 0.5 * sigma^2) * T ) / ( sigma * sqrt(T) )`. -/
noncomputable def spec_d1 (S K T r sigma : ℝ) : ℝ :=
  (Real.log (S / K) + (r + 0.5 * sigma ^ 2) * T) / (sigma * Real.sqrt T)

/-- The quantity `d2` as written in the spec:
`( ln(S / K) + (r - 0.5 * sigma^2) * T ) / ( sigma * sqrt(T) )`. -/
noncomputable def spec_d2 (S K T r sigma : ℝ) : ℝ :=
  (Real.log (S / K) + (r - 0.5 * sigma ^ 2) * T) / (sigma * Real.sqrt T)

/-- The call price as written in the spec:
`price_call = S * Φ(d1) - K * exp(-r*T) * Φ(d2)`. -/
noncomputable def spec_call_price (S K T r sigma : ℝ) : ℝ :=
  S * norm_cdf (spec_d1 S K T r sigma) -
    K * Real.exp (-r * T) * norm_cdf (spec_d2 S K T r sigma)

/-- The put price as written in the spec:
`price_put = K * exp(-r*T) * Φ(-d2) - S * Φ(-d1)`. -/
noncomputable def spec_put_price (S K T r sigma : ℝ) : ℝ :=
  K * Real.exp (-r * T) * norm_cdf (-spec_d2 S K T r sigma) -
    S * norm_cdf (-spec_d1 S K T r sigma)

/-- C1: for every model with stored parameters `S > 0`, `K > 0`, `T > 0`,
any `r`, `sigma > 0`, the call-pricing hook returns
`S * Φ(d1) - K * exp(-r*T) * Φ(d2)` with `d1`, `d2` as in the spec and `Φ`
the standard normal CDF. -/
theorem call_hook_matches_spec (m : BlackScholesModel)
    (hS : 0 < m.S) (hK : 0 < m.K) (hT : 0 < m.T) (hsig : 0 < m.sigma) :
    m.calculate_call_option_price = spec_call_price m.S m.K m.T m.r m.sigma :=
  rfl

/-- Witness for C1 at `S = 100`, `K = 100`, `T = 1`, `r = 0.05`,
`sigma = 0.2`. -/
theorem call_hook_matches_spec_witness :
    (0 : ℝ) < 100 ∧ (0 : ℝ) < 100 ∧ (0 : ℝ) < 1 ∧ (0 : ℝ) < 0.2 ∧
      (BlackScholesModel.mk 100 100 1 0.05 0.2).calculate_call_option_price =
        spec_call_price 100 100 1 0.05 0.2 :=
  ⟨by norm_num, by norm_num, by norm_num, by norm_num,
    call_hook_matches_spec (BlackScholesModel.mk 100 100 1 0.05 0.2)
      (by norm_num) (by norm_num) (by norm_num) (by norm_num)⟩

/-- C2: for every model with stored parameters `S > 0`, `K > 0`, `T > 0`,
any `r`, `sigma > 0`, the put-pricing hook returns
`K * exp(-r*T) * Φ(-d2) - S * Φ(-d1)`. -/
theorem put_hook_matches_spec (m : BlackScholesModel)
    (hS : 0 < m.S) (hK : 0 < m.K) (hT : 0 < m.T) (hsig : 0 < m.sigma) :
    m.calculate_put_option_price = spec_put_price m.S m.K m.T m.r m.sigma :=
  rfl

/-- Witness for C2 at `S = 100`, `K = 100`, `T = 1`, `r = 0.05`,
`sigma = 0.2`. -/
theorem put_hook_matches_spec_witness :
    (0 : ℝ) < 100 ∧ (0 : ℝ) < 100 ∧ (0 : ℝ) < 1 ∧ (0 : ℝ) < 0.2 ∧
      (BlackScholesModel.mk 100 100 1 0.05 0.2).calculate_put_option_price =
        spec_put_price 100 100 1 0.05 0.2 :=
  ⟨by norm_num, by norm_num, by norm_num, by norm_num,
    put_hook_matches_spec (BlackScholesModel.mk 100 100 1 0.05 0.2)
      (by norm_num) (by norm_num) (by norm_num) (by norm_num)⟩

/-- C3: for every model and every selector, `calculate_option_price`
returns the call hook's result when the selector equals the string
`"Call Option"`, the put hook's result when it equals `"Put Option"`, and
exactly `-1` for every other selector value, regardless of the stored
parameters (the hooks are not consulted in the sentinel branch). -/
theorem dispatch_cases (m : OptionPricingModel) (sel : Selector) :
    calculate_option_price m sel =
      if sel = Selector.str "Call Option" then m.calculate_call_option_price
      else if sel = Selector.str "Put Option" then m.calculate_put_option_price
      else -1 := by
  cases sel with
  | str s =>
      by_cases h1 : s = "Call Option"
      · subst h1; rfl
      · by_cases h2 : s = "Put Option"
        · subst h2; rfl
        · simp [calculate_option_price, Selector.eqString, OPTION_TYPE.value,
            h1, h2]
  | enumMember t =>
      simp [calculate_option_price, Selector.eqString, OPTION_TYPE.value]

/-- C6: the constructor stores the spot, strike, rate and volatility
unchanged and stores the time to maturity as `days_to_maturity / 365`; the
model is a plain immutable record, so both hook results (and hence every
pricing call) are functions of these stored fields alone. -/
theorem init_stores_fields (underlying_spot_price strike_price
    days_to_maturity risk_free_rate sigma : ℝ) :
    (BlackScholesModel.init underlying_spot_price strike_price
        days_to_maturity risk_free_rate sigma).S = underlying_spot_price ∧
    (BlackScholesModel.init underlying_spot_price strike_price
        days_to_maturity risk_free_rate sigma).K = strike_price ∧
    (BlackScholesModel.init underlying_spot_price strike_price
        days_to_maturity risk_free_rate sigma).T = days_to_maturity / 365 ∧
    (BlackScholesModel.init underlying_spot_price strike_price
        days_to_maturity risk_free_rate sigma).r = risk_free_rate ∧
    (BlackScholesModel.init underlying_spot_price strike_price
        days_to_maturity risk_free_rate sigma).sigma = sigma ∧
    ∀ sel : Selector,
      calculate_option_price (BlackScholesModel.init underlying_spot_price
        strike_price days_to_maturity risk_free_rate sigma).toPricingModel sel =
      calculate_option_price (BlackScholesModel.mk underlying_spot_price
        strike_price (days_to_maturity / 365) risk_free_rate
        sigma).toPricingModel sel :=
  ⟨rfl, rfl, rfl, rfl, rfl, fun _ => rfl⟩

/-- C9: for `T > 0` and `sigma > 0`, the `d2` computed by the hooks equals
`d1 - sigma * sqrt T`. -/
theorem d2_eq_d1_sub_sigma_sqrt_T (m : BlackScholesModel)
    (hT : 0 < m.T) (hsig : 0 < m.sigma) :
    m.d2 = m.d1 - m.sigma * Real.sqrt m.T := by
  have hsq : Real.sqrt m.T * Real.sqrt m.T = m.T := Real.mul_self_sqrt hT.le
  have hs : Real.sqrt m.T ≠ 0 := by positivity
  have hden : m.sigma * Real.sqrt m.T ≠ 0 := by positivity
  rw [BlackScholesModel.d1, BlackScholesModel.d2, eq_sub_iff_add_eq,
    div_add' _ _ _ hden]
  congr 1
  ring_nf
  nlinarith [hsq]

/-- Witness for C9 at `S = 100`, `K = 100`, `T = 1`, `r = 0.05`,
`sigma = 0.2`. -/
theorem d2_eq_d1_sub_sigma_sqrt_T_witness :
    (0 : ℝ) < 1 ∧ (0 : ℝ) < 0.2 ∧
      (BlackScholesModel.mk 100 100 1 0.05 0.2).d2 =
        (BlackScholesModel.mk 100 100 1 0.05 0.2).d1 -
          (0.2 : ℝ) * Real.sqrt 1 :=
  ⟨by norm_num, by norm_num,
    d2_eq_d1_sub_sigma_sqrt_T (BlackScholesModel.mk 100 100 1 0.05 0.2)
      (by norm_num) (by norm_num)⟩

lemma stdNormalPDF_nonneg (t : ℝ) : 0 ≤ stdNormalPDF t := by
  rw [stdNormalPDF]; positivity

lemma sqrt_two_pi_pos : 0 < Real.sqrt (2 * Real.pi) :=
  Real.sqrt_pos.mpr (by positivity)

lemma stdNormalPDF_eq_fun :
    stdNormalPDF =
      fun t => (Real.sqrt (2 * Real.pi))⁻¹ * Real.exp (-(1 / 2) * t ^ 2) := by
  funext t
  rw [stdNormalPDF]
  congr 1
  congr 1
  ring

lemma integrable_stdNormalPDF : Integrable stdNormalPDF := by
  rw [stdNormalPDF_eq_fun]
  exact (integrable_exp_neg_mul_sq (by norm_num : (0:ℝ) < 1 / 2)).const_mul _

lemma integral_stdNormalPDF : ∫ t, stdNormalPDF t = 1 := by
  rw [stdNormalPDF_eq_fun]
  rw [MeasureTheory.integral_mul_left, integral_gaussian]
  rw [show Real.pi / (1 / 2) = 2 * Real.pi by ring]
  exact inv_mul_cancel₀ (ne_of_gt sqrt_two_pi_pos)

lemma norm_cdf_neg_eq_Ioi (x : ℝ) :
    norm_cdf (-x) = ∫ t in Ioi x, stdNormalPDF t := by
  rw [norm_cdf, ← integral_comp_neg_Ioi x stdNormalPDF]
  refine setIntegral_congr_fun measurableSet_Ioi fun t _ => ?_
  rw [stdNormalPDF, stdNormalPDF, neg_sq]

lemma norm_cdf_add_Ioi (x : ℝ) :
    norm_cdf x + ∫ t in Ioi x, stdNormalPDF t = 1 := by
  rw [norm_cdf,
    intervalIntegral.integral_Iic_add_Ioi integrable_stdNormalPDF.integrableOn
      integrable_stdNormalPDF.integrableOn,
    integral_stdNormalPDF]

lemma norm_cdf_neg (x : ℝ) : norm_cdf (-x) = 1 - norm_cdf x := by
  rw [norm_cdf_neg_eq_Ioi]
  linarith [norm_cdf_add_Ioi x]

/-- Exact put-call parity of the two hooks: it holds for all stored
parameters, with no tolerance needed in exact real arithmetic. -/
lemma call_sub_put (m : BlackScholesModel) :
    m.calculate_call_option_price - m.calculate_put_option_price =
      m.S - m.K * Real.exp (-m.r * m.T) := by
  rw [BlackScholesModel.calculate_call_option_price,
    BlackScholesModel.calculate_put_option_price, norm_cdf_neg, norm_cdf_neg]
  ring

/-- C4: for every valid parameter set (`S > 0`, `K > 0`, `T > 0`,
`sigma > 0`, any `r`), the prices returned by `calculate_option_price` for
the CALL and PUT selectors on the same model satisfy put-call parity:
`call - put = S - K * exp (-r*T)` within `1e-6` (in the exact-real
embedding the relation is exact, so the tolerance is trivially met). -/
theorem put_call_parity (m : BlackScholesModel)
    (hS : 0 < m.S) (hK : 0 < m.K) (hT : 0 < m.T) (hsig : 0 < m.sigma) :
    |calculate_option_price m.toPricingModel
        (Selector.str OPTION_TYPE.CALL_OPTION.value) -
      calculate_option_price m.toPricingModel
        (Selector.str OPTION_TYPE.PUT_OPTION.value) -
      (m.S - m.K * Real.exp (-m.r * m.T))| ≤ 1 / 1000000 := by
  have hc : calculate_option_price m.toPricingModel
      (Selector.str OPTION_TYPE.CALL_OPTION.value) =
      m.calculate_call_option_price := rfl
  have hp : calculate_option_price m.toPricingModel
      (Selector.str OPTION_TYPE.PUT_OPTION.value) =
      m.calculate_put_option_price := rfl
  rw [hc, hp, call_sub_put, sub_self, abs_zero]
  norm_num

/-- Witness for C4 at `S = 100`, `K = 100`, `T = 1`, `r = 0.05`,
`sigma = 0.2`. -/
theorem put_call_parity_witness :
    (0 : ℝ) < 100 ∧ (0 : ℝ) < 100 ∧ (0 : ℝ) < 1 ∧ (0 : ℝ) < 0.2 ∧
      |calculate_option_price
          (BlackScholesModel.mk 100 100 1 0.05 0.2).toPricingModel
          (Selector.str OPTION_TYPE.CALL_OPTION.value) -
        calculate_option_price
          (BlackScholesModel.mk 100 100 1 0.05 0.2).toPricingModel
          (Selector.str OPTION_TYPE.PUT_OPTION.value) -
        ((100 : ℝ) - 100 * Real.exp (-(0.05) * 1))| ≤ 1 / 1000000 :=
  ⟨by norm_num, by norm_num, by norm_num, by norm_num,
    put_call_parity (BlackScholesModel.mk 100 100 1 0.05 0.2)
      (by norm_num) (by norm_num) (by norm_num) (by norm_num)⟩

lemma measurableEmbedding_shift (s : ℝ) :
    MeasurableEmbedding (fun u : ℝ => u + s) :=
  (Homeomorph.addRight s).isClosedEmbedding.measurableEmbedding

lemma integral_Iic_shift (f : ℝ → ℝ) (a s : ℝ) :
    ∫ u in Iic a, f (u + s) = ∫ t in Iic (a + s), f t := by
  have hpre : Set.preimage (fun u : ℝ => u + s) (Iic (a + s)) = Iic a := by
    ext u
    simp
  rw [← hpre]
  exact (measurePreserving_add_right volume s).setIntegral_preimage_emb
    (measurableEmbedding_shift s) f (Iic (a + s))

lemma stdNormalPDF_shift (u s : ℝ) :
    stdNormalPDF (u + s) = stdNormalPDF u * Real.exp (-(u * s) - s ^ 2 / 2) := by
  rw [stdNormalPDF, stdNormalPDF, mul_assoc, ← Real.exp_add]
  congr 1
  congr 1
  ring

lemma integrable_stdNormalPDF_shift (s : ℝ) :
    Integrable (fun u : ℝ => stdNormalPDF (u + s)) := by
  have h := ((measurePreserving_add_right (volume : Measure ℝ) s).integrable_comp_emb
    (measurableEmbedding_shift s)).mpr integrable_stdNormalPDF
  simpa [Function.comp] using h

/-- Exponential tilting bound: for `s > 0`,
`Φ(a) ≤ exp (s*a + s^2/2) * Φ(a + s)`.  This is the analytic heart of the
no-arbitrage bounds: the difference of the two sides is the integral over
`(-∞, a]` of `stdNormalPDF u * (exp (s*(a-u)) - 1) ≥ 0`. -/
lemma norm_cdf_le_exp_tilt (a s : ℝ) (hs : 0 < s) :
    norm_cdf a ≤ Real.exp (s * a + s ^ 2 / 2) * norm_cdf (a + s) := by
  have hshift : norm_cdf (a + s) = ∫ u in Iic a, stdNormalPDF (u + s) :=
    (integral_Iic_shift stdNormalPDF a s).symm
  have h1 : Real.exp (s * a + s ^ 2 / 2) * norm_cdf (a + s)
      = ∫ u in Iic a,
          Real.exp (s * a + s ^ 2 / 2) * stdNormalPDF (u + s) := by
    rw [hshift, ← MeasureTheory.integral_mul_left]
  have hInt1 : IntegrableOn
      (fun u : ℝ => Real.exp (s * a + s ^ 2 / 2) * stdNormalPDF (u + s))
      (Iic a) volume :=
    ((integrable_stdNormalPDF_shift s).const_mul _).integrableOn
  have hInt2 : IntegrableOn stdNormalPDF (Iic a) volume :=
    integrable_stdNormalPDF.integrableOn
  rw [norm_cdf, h1, ← sub_nonneg, ← MeasureTheory.integral_sub hInt1 hInt2]
  refine MeasureTheory.setIntegral_nonneg measurableSet_Iic fun u hu => ?_
  have hkey : Real.exp (s * a + s ^ 2 / 2) * stdNormalPDF (u + s)
      = stdNormalPDF u * Real.exp (s * (a - u)) := by
    rw [stdNormalPDF_shift, ← mul_assoc, mul_comm (Real.exp (s * a + s ^ 2 / 2)),
      mul_assoc, ← Real.exp_add]
    congr 2
    ring
  rw [hkey]
  have hval : 1 ≤ Real.exp (s * (a - u)) := by
    refine Real.one_le_exp ?_
    have := mem_Iic.mp hu
    nlinarith
  nlinarith [stdNormalPDF_nonneg u]

lemma sigma_sqrt_pos (m : BlackScholesModel) (hT : 0 < m.T)
    (hsig : 0 < m.sigma) : 0 < m.sigma * Real.sqrt m.T :=
  mul_pos hsig (Real.sqrt_pos.mpr hT)

lemma tilt_exponent_call (m : BlackScholesModel) (hS : 0 < m.S) (hK : 0 < m.K)
    (hT : 0 < m.T) (hsig : 0 < m.sigma) :
    m.K * Real.exp (-m.r * m.T) *
      Real.exp (m.sigma * Real.sqrt m.T * m.d2 +
        (m.sigma * Real.sqrt m.T) ^ 2 / 2) = m.S := by
  have hden : m.sigma * Real.sqrt m.T ≠ 0 := (sigma_sqrt_pos m hT hsig).ne'
  have hsd2 : m.sigma * Real.sqrt m.T * m.d2
      = Real.log (m.S / m.K) + (m.r - 0.5 * m.sigma ^ 2) * m.T := by
    rw [BlackScholesModel.d2, mul_comm, div_mul_cancel₀ _ hden]
  have hsq : (m.sigma * Real.sqrt m.T) ^ 2 = m.sigma ^ 2 * m.T := by
    rw [mul_pow, Real.sq_sqrt hT.le]
  rw [hsd2, hsq, mul_assoc, ← Real.exp_add,
    show -m.r * m.T + (Real.log (m.S / m.K) +
      (m.r - 0.5 * m.sigma ^ 2) * m.T + m.sigma ^ 2 * m.T / 2)
      = Real.log (m.S / m.K) by ring,
    Real.exp_log (div_pos hS hK)]
  field_simp

lemma tilt_exponent_put (m : BlackScholesModel) (hS : 0 < m.S) (hK : 0 < m.K)
    (hT : 0 < m.T) (hsig : 0 < m.sigma) :
    m.S * Real.exp (m.sigma * Real.sqrt m.T * -m.d1 +
        (m.sigma * Real.sqrt m.T) ^ 2 / 2) =
      m.K * Real.exp (-m.r * m.T) := by
  have hden : m.sigma * Real.sqrt m.T ≠ 0 := (sigma_sqrt_pos m hT hsig).ne'
  have hsd1 : m.sigma * Real.sqrt m.T * m.d1
      = Real.log (m.S / m.K) + (m.r + 0.5 * m.sigma ^ 2) * m.T := by
    rw [BlackScholesModel.d1, mul_comm, div_mul_cancel₀ _ hden]
  have hsq : (m.sigma * Real.sqrt m.T) ^ 2 = m.sigma ^ 2 * m.T := by
    rw [mul_pow, Real.sq_sqrt hT.le]
  rw [mul_neg, hsd1, hsq,
    show -(Real.log (m.S / m.K) + (m.r + 0.5 * m.sigma ^ 2) * m.T) +
        m.sigma ^ 2 * m.T / 2
      = -Real.log (m.S / m.K) + -m.r * m.T by ring,
    Real.exp_add, ← Real.log_inv, Real.exp_log (by positivity : 0 < (m.S / m.K)⁻¹)]
  field_simp

lemma call_price_nonneg (m : BlackScholesModel) (hS : 0 < m.S) (hK : 0 < m.K)
    (hT : 0 < m.T) (hsig : 0 < m.sigma) :
    0 ≤ m.calculate_call_option_price := by
  have hs : 0 < m.sigma * Real.sqrt m.T := sigma_sqrt_pos m hT hsig
  have hd2 := d2_eq_d1_sub_sigma_sqrt_T m hT hsig
  have hd1 : m.d1 = m.d2 + m.sigma * Real.sqrt m.T := by linarith
  have hkey := norm_cdf_le_exp_tilt m.d2 (m.sigma * Real.sqrt m.T) hs
  have hpos : (0 : ℝ) < m.K * Real.exp (-m.r * m.T) := by positivity
  have h2 := mul_le_mul_of_nonneg_left hkey hpos.le
  have h3 : m.K * Real.exp (-m.r * m.T) *
      (Real.exp (m.sigma * Real.sqrt m.T * m.d2 +
        (m.sigma * Real.sqrt m.T) ^ 2 / 2) *
        norm_cdf (m.d2 + m.sigma * Real.sqrt m.T))
      = m.S * norm_cdf m.d1 := by
    rw [← mul_assoc, tilt_exponent_call m hS hK hT hsig, ← hd1]
  rw [BlackScholesModel.calculate_call_option_price, sub_nonneg]
  calc m.K * Real.exp (-m.r * m.T) * norm_cdf m.d2
      ≤ m.K * Real.exp (-m.r * m.T) *
          (Real.exp (m.sigma * Real.sqrt m.T * m.d2 +
            (m.sigma * Real.sqrt m.T) ^ 2 / 2) *
            norm_cdf (m.d2 + m.sigma * Real.sqrt m.T)) := h2
    _ = m.S * norm_cdf m.d1 := h3

lemma put_price_nonneg (m : BlackScholesModel) (hS : 0 < m.S) (hK : 0 < m.K)
    (hT : 0 < m.T) (hsig : 0 < m.sigma) :
    0 ≤ m.calculate_put_option_price := by
  have hs : 0 < m.sigma * Real.sqrt m.T := sigma_sqrt_pos m hT hsig
  have hd2 := d2_eq_d1_sub_sigma_sqrt_T m hT hsig
  have hsum : -m.d1 + m.sigma * Real.sqrt m.T = -m.d2 := by linarith
  have hkey := norm_cdf_le_exp_tilt (-m.d1) (m.sigma * Real.sqrt m.T) hs
  rw [hsum] at hkey
  have h2 := mul_le_mul_of_nonneg_left hkey hS.le
  have h3 : m.S * (Real.exp (m.sigma * Real.sqrt m.T * -m.d1 +
        (m.sigma * Real.sqrt m.T) ^ 2 / 2) * norm_cdf (-m.d2))
      = m.K * Real.exp (-m.r * m.T) * norm_cdf (-m.d2) := by
    rw [← mul_assoc, tilt_exponent_put m hS hK hT hsig]
  rw [BlackScholesModel.calculate_put_option_price, sub_nonneg]
  calc m.S * norm_cdf (-m.d1)
      ≤ m.S * (Real.exp (m.sigma * Real.sqrt m.T * -m.d1 +
          (m.sigma * Real.sqrt m.T) ^ 2 / 2) * norm_cdf (-m.d2)) := h2
    _ = m.K * Real.exp (-m.r * m.T) * norm_cdf (-m.d2) := h3

/-- C7: for every valid parameter set (`S > 0`, `K > 0`, `T > 0`,
`sigma > 0`, any `r`), both hook prices are non-negative, the call price is
at least `max (S - K*exp(-r*T)) 0` and the put price is at least
`max (K*exp(-r*T) - S) 0`. -/
theorem price_no_arbitrage_bounds (m : BlackScholesModel)
    (hS : 0 < m.S) (hK : 0 < m.K) (hT : 0 < m.T) (hsig : 0 < m.sigma) :
    0 ≤ m.calculate_call_option_price ∧
    0 ≤ m.calculate_put_option_price ∧
    max (m.S - m.K * Real.exp (-m.r * m.T)) 0 ≤
      m.calculate_call_option_price ∧
    max (m.K * Real.exp (-m.r * m.T) - m.S) 0 ≤
      m.calculate_put_option_price := by
  have hc := call_price_nonneg m hS hK hT hsig
  have hp := put_price_nonneg m hS hK hT hsig
  have hparity := call_sub_put m
  exact ⟨hc, hp, max_le (by linarith) hc, max_le (by linarith) hp⟩

/-- Witness for C7 at `S = 100`, `K = 100`, `T = 1`, `r = 0.05`,
`sigma = 0.2`. -/
theorem price_no_arbitrage_bounds_witness :
    (0 : ℝ) < 100 ∧ (0 : ℝ) < 100 ∧ (0 : ℝ) < 1 ∧ (0 : ℝ) < 0.2 ∧
      (0 ≤ (BlackScholesModel.mk 100 100 1 0.05
          0.2).calculate_call_option_price ∧
        0 ≤ (BlackScholesModel.mk 100 100 1 0.05
          0.2).calculate_put_option_price ∧
        max ((100 : ℝ) - 100 * Real.exp (-(0.05) * 1)) 0 ≤
          (BlackScholesModel.mk 100 100 1 0.05
            0.2).calculate_call_option_price ∧
        max ((100 : ℝ) * Real.exp (-(0.05) * 1) - 100) 0 ≤
          (BlackScholesModel.mk 100 100 1 0.05
            0.2).calculate_put_option_price) :=
  ⟨by norm_num, by norm_num, by norm_num, by norm_num,
    price_no_arbitrage_bounds (BlackScholesModel.mk 100 100 1 0.05 0.2)
      (by norm_num) (by norm_num) (by norm_num) (by norm_num)⟩

lemma norm_cdf_zero : norm_cdf 0 = 1 / 2 := by
  have h := norm_cdf_neg 0
  rw [neg_zero] at h
  linarith

lemma norm_cdf_eq_half_add (x : ℝ) :
    norm_cdf x = 1 / 2 +
      (∫ t in (0:ℝ)..x, Real.exp (-t ^ 2 / 2)) / Real.sqrt (2 * Real.pi) := by
  have hsub : norm_cdf x - norm_cdf 0 = ∫ t in (0:ℝ)..x, stdNormalPDF t := by
    rw [norm_cdf, norm_cdf]
    exact intervalIntegral.integral_Iic_sub_Iic
      integrable_stdNormalPDF.integrableOn integrable_stdNormalPDF.integrableOn
  have hconst : (∫ t in (0:ℝ)..x, stdNormalPDF t)
      = (∫ t in (0:ℝ)..x, Real.exp (-t ^ 2 / 2)) / Real.sqrt (2 * Real.pi) := by
    rw [div_eq_inv_mul, ← intervalIntegral.integral_const_mul]
    apply intervalIntegral.integral_congr
    intro t _
    rw [stdNormalPDF]
  rw [norm_cdf_zero] at hsub
  linarith [hsub, hconst]

lemma exp_quad_pointwise (t : ℝ) (ht : t ^ 2 ≤ 2) :
    |Real.exp (-t ^ 2 / 2) - (1 - t ^ 2 / 2 + t ^ 4 / 8)| ≤ t ^ 6 / 36 := by
  have habs : |(-t ^ 2 / 2 : ℝ)| ≤ 1 := by
    rw [abs_div, abs_neg, abs_of_nonneg (by positivity : (0:ℝ) ≤ t ^ 2),
      abs_of_nonneg (by norm_num : (0:ℝ) ≤ 2)]
    linarith
  have h := Real.exp_bound habs (by norm_num : 0 < 3)
  have hsum : ∑ m ∈ Finset.range 3, (-t ^ 2 / 2) ^ m / (Nat.factorial m)
      = 1 - t ^ 2 / 2 + t ^ 4 / 8 := by
    rw [Finset.sum_range_succ, Finset.sum_range_succ, Finset.sum_range_succ,
      Finset.sum_range_zero]
    norm_num [Nat.factorial]
    ring
  rw [hsum] at h
  refine h.trans ?_
  rw [abs_div, abs_neg, abs_of_nonneg (by positivity : (0:ℝ) ≤ t ^ 2),
    abs_of_nonneg (by norm_num : (0:ℝ) ≤ 2)]
  norm_num [Nat.factorial]
  nlinarith [pow_nonneg (sq_nonneg t) 3]

lemma poly_integral (a : ℝ) :
    (∫ t in (0:ℝ)..a, (1 - t ^ 2 / 2 + t ^ 4 / 8)) =
      a - a ^ 3 / 6 + a ^ 5 / 40 := by
  have c2 : Continuous fun t : ℝ => t ^ 2 / 2 := (continuous_pow 2).div_const 2
  have c4 : Continuous fun t : ℝ => t ^ 4 / 8 := (continuous_pow 4).div_const 8
  rw [intervalIntegral.integral_add
      ((continuous_const.sub c2).intervalIntegrable _ _)
      (c4.intervalIntegrable _ _),
    intervalIntegral.integral_sub intervalIntegrable_const
      (c2.intervalIntegrable _ _),
    intervalIntegral.integral_div, intervalIntegral.integral_div,
    integral_pow, integral_pow,
    intervalIntegral.integral_const]
  norm_num
  ring

lemma gauss_interval_bound (a : ℝ) (h0 : 0 ≤ a) (h1 : a ≤ 1) :
    |(∫ t in (0:ℝ)..a, Real.exp (-t ^ 2 / 2)) -
        (a - a ^ 3 / 6 + a ^ 5 / 40)| ≤ a ^ 7 / 252 := by
  have hce : Continuous fun t : ℝ => Real.exp (-t ^ 2 / 2) :=
    Real.continuous_exp.comp ((continuous_pow 2).neg.div_const 2)
  have hcp : Continuous fun t : ℝ => 1 - t ^ 2 / 2 + t ^ 4 / 8 :=
    (continuous_const.sub ((continuous_pow 2).div_const 2)).add
      ((continuous_pow 4).div_const 8)
  have hc6 : Continuous fun t : ℝ => t ^ 6 / 36 := (continuous_pow 6).div_const 36
  rw [← poly_integral a, ← intervalIntegral.integral_sub
    (hce.intervalIntegrable _ _) (hcp.intervalIntegrable _ _)]
  calc |∫ t in (0:ℝ)..a,
        (Real.exp (-t ^ 2 / 2) - (1 - t ^ 2 / 2 + t ^ 4 / 8))|
      ≤ ∫ t in (0:ℝ)..a,
          |Real.exp (-t ^ 2 / 2) - (1 - t ^ 2 / 2 + t ^ 4 / 8)| :=
        intervalIntegral.abs_integral_le_integral_abs h0
    _ ≤ ∫ t in (0:ℝ)..a, t ^ 6 / 36 := by
        refine intervalIntegral.integral_mono_on h0
          ((hce.sub hcp).abs.intervalIntegrable _ _)
          (hc6.intervalIntegrable _ _) fun t ht => ?_
        refine exp_quad_pointwise t ?_
        rcases ht with ⟨ht0, ht1⟩
        nlinarith
    _ = a ^ 7 / 252 := by
        rw [intervalIntegral.integral_div, integral_pow]
        norm_num [div_div]

lemma sqrt_two_pi_lt : Real.sqrt (2 * Real.pi) < 2.506629 := by
  rw [Real.sqrt_lt' (by norm_num : (0:ℝ) < 2.506629)]
  nlinarith [Real.pi_lt_d6]

lemma lt_sqrt_two_pi : (2.506628 : ℝ) < Real.sqrt (2 * Real.pi) := by
  rw [Real.lt_sqrt (by norm_num : (0:ℝ) ≤ 2.506628)]
  nlinarith [Real.pi_gt_d6]

lemma pow_succ_le_self (a : ℝ) (h0 : 0 ≤ a) (h1 : a ≤ 1) (n : ℕ) :
    a ^ (n + 1) ≤ a := by
  calc a ^ (n + 1) = a * a ^ n := by ring
    _ ≤ a * 1 := mul_le_mul_of_nonneg_left (pow_le_one₀ h0 h1) h0
    _ = a := mul_one a

lemma norm_cdf_between (a : ℝ) (h0 : 0 ≤ a) (h1 : a ≤ 1) :
    1 / 2 + (a - a ^ 3 / 6 + a ^ 5 / 40 - a ^ 7 / 252) / 2.506629 ≤ norm_cdf a ∧
      norm_cdf a ≤
        1 / 2 + (a - a ^ 3 / 6 + a ^ 5 / 40 + a ^ 7 / 252) / 2.506628 := by
  have hJ := gauss_interval_bound a h0 h1
  rw [abs_le] at hJ
  have hcdf := norm_cdf_eq_half_add a
  have hslo := lt_sqrt_two_pi
  have hshi := sqrt_two_pi_lt
  have hs_pos := sqrt_two_pi_pos
  have h3 : a ^ 3 ≤ a := pow_succ_le_self a h0 h1 2
  have h5 : 0 ≤ a ^ 5 := by positivity
  have h7 : a ^ 7 ≤ a := pow_succ_le_self a h0 h1 6
  have hJlo : a - a ^ 3 / 6 + a ^ 5 / 40 - a ^ 7 / 252
      ≤ ∫ t in (0:ℝ)..a, Real.exp (-t ^ 2 / 2) := by linarith [hJ.1]
  have hJhi : (∫ t in (0:ℝ)..a, Real.exp (-t ^ 2 / 2))
      ≤ a - a ^ 3 / 6 + a ^ 5 / 40 + a ^ 7 / 252 := by linarith [hJ.2]
  have hJlo_nonneg : 0 ≤ a - a ^ 3 / 6 + a ^ 5 / 40 - a ^ 7 / 252 := by
    linarith
  constructor
  · have hdiv : (a - a ^ 3 / 6 + a ^ 5 / 40 - a ^ 7 / 252) / 2.506629
        ≤ (∫ t in (0:ℝ)..a, Real.exp (-t ^ 2 / 2)) / Real.sqrt (2 * Real.pi) :=
      div_le_div₀ (by linarith) hJlo hs_pos hshi.le
    linarith [hcdf, hdiv]
  · have hdiv : (∫ t in (0:ℝ)..a, Real.exp (-t ^ 2 / 2)) /
          Real.sqrt (2 * Real.pi)
        ≤ (a - a ^ 3 / 6 + a ^ 5 / 40 + a ^ 7 / 252) / 2.506628 :=
      div_le_div₀ (by linarith) hJhi (by norm_num) hslo.le
    linarith [hcdf, hdiv]

lemma norm_cdf_035_bounds :
    (0.63683 : ℝ) ≤ norm_cdf 0.35 ∧ norm_cdf 0.35 ≤ 0.636833 := by
  have h := norm_cdf_between 0.35 (by norm_num) (by norm_num)
  constructor
  · refine le_trans (by norm_num) h.1
  · refine le_trans h.2 (by norm_num)

lemma norm_cdf_015_bounds :
    (0.559617 : ℝ) ≤ norm_cdf 0.15 ∧ norm_cdf 0.15 ≤ 0.559618 := by
  have h := norm_cdf_between 0.15 (by norm_num) (by norm_num)
  constructor
  · refine le_trans (by norm_num) h.1
  · refine le_trans h.2 (by norm_num)

lemma exp_neg_005_bounds :
    (0.951228 : ℝ) ≤ Real.exp (-(0.05)) ∧ Real.exp (-(0.05)) ≤ 0.95123 := by
  have habs : |(-(0.05) : ℝ)| ≤ 1 := by
    rw [abs_of_nonpos (by norm_num : (-(0.05) : ℝ) ≤ 0)]
    norm_num
  have h := Real.exp_bound habs (by norm_num : 0 < 4)
  rw [Finset.sum_range_succ, Finset.sum_range_succ, Finset.sum_range_succ,
    Finset.sum_range_succ, Finset.sum_range_zero,
    abs_of_nonpos (by norm_num : (-(0.05) : ℝ) ≤ 0)] at h
  norm_num [Nat.factorial] at h
  rw [abs_le] at h
  constructor <;> linarith [h.1, h.2]

/-- C5: for the construction inputs `S = 100`, `K = 100`,
`days_to_maturity = 365`, `r = 0.05`, `sigma = 0.2`, the call price is
within `1e-3` of `10.4506` and the put price is within `1e-3` of
`5.5735`. -/
theorem concrete_scenario_prices :
    |(BlackScholesModel.init 100 100 365 0.05
        0.2).calculate_call_option_price - 10.4506| ≤ 1 / 1000 ∧
      |(BlackScholesModel.init 100 100 365 0.05
        0.2).calculate_put_option_price - 5.5735| ≤ 1 / 1000 := by
  have hm : BlackScholesModel.init 100 100 365 0.05 0.2
      = BlackScholesModel.mk 100 100 1 0.05 0.2 := by
    rw [BlackScholesModel.init, show (365:ℝ)/365 = 1 by norm_num]
  have hd1 : (BlackScholesModel.mk 100 100 1 0.05 0.2).d1 = 0.35 := by
    rw [BlackScholesModel.d1]
    norm_num [Real.sqrt_one, Real.log_one]
  have hd2 : (BlackScholesModel.mk 100 100 1 0.05 0.2).d2 = 0.15 := by
    rw [BlackScholesModel.d2]
    norm_num [Real.sqrt_one, Real.log_one]
  have hcall : (BlackScholesModel.mk 100 100 1 0.05
      0.2).calculate_call_option_price
      = 100 * norm_cdf 0.35 - 100 * Real.exp (-(0.05)) * norm_cdf 0.15 := by
    rw [BlackScholesModel.calculate_call_option_price, hd1, hd2]
    norm_num
  have hput : (BlackScholesModel.mk 100 100 1 0.05
      0.2).calculate_put_option_price
      = 100 * Real.exp (-(0.05)) * (1 - norm_cdf 0.15) -
        100 * (1 - norm_cdf 0.35) := by
    rw [BlackScholesModel.calculate_put_option_price, hd1, hd2,
      norm_cdf_neg, norm_cdf_neg]
    norm_num
  obtain ⟨hx1, hx2⟩ := exp_neg_005_bounds
  obtain ⟨hp1, hp2⟩ := norm_cdf_035_bounds
  obtain ⟨hq1, hq2⟩ := norm_cdf_015_bounds
  have hprod_lo : (0.951228 : ℝ) * 0.559617 ≤
      Real.exp (-(0.05)) * norm_cdf 0.15 :=
    mul_le_mul hx1 hq1 (by norm_num) (le_trans (by norm_num) hx1)
  have hprod_hi : Real.exp (-(0.05)) * norm_cdf 0.15 ≤
      (0.95123 : ℝ) * 0.559618 :=
    mul_le_mul hx2 hq2 (le_trans (by norm_num) hq1) (by norm_num)
  rw [hm, hcall, hput]
  constructor
  · rw [abs_le]
    constructor <;> nlinarith
  · rw [abs_le]
    constructor <;> nlinarith

/-- A double-precision value as it flows through the pricing formulas: a
finite value (whose arithmetic, while it stays finite, is embedded exactly
over ℝ), a signed infinity, or NaN.  The special values arise in the source
only from the division `numerator / (sigma * np.sqrt(T))` when the
denominator is zero: numpy float division by zero emits a runtime warning
and yields `inf`/`-inf`/`nan`; it raises no exception. -/
inductive FVal : Type
  | fin : ℝ → FVal
  | pinf : FVal
  | ninf : FVal
  | nan : FVal

/-- IEEE-754 division of two finite values (the only division in the hooks
whose denominator can vanish): finite quotient when the denominator is
non-zero, `nan` for `0/0`, and a signed infinity for `x/0` with `x ≠ 0`
(the zero denominator produced by `sigma * np.sqrt(T)` is `+0.0`). -/
noncomputable def fdiv (x y : ℝ) : FVal :=
  if y = 0 then
    (if x = 0 then FVal.nan else if 0 < x then FVal.pinf else FVal.ninf)
  else FVal.fin (x / y)

/-- Behavior of `scipy.stats.norm.cdf` on an IEEE input: a finite value maps through
the CDF, `cdf(+inf) = 1.0`, `cdf(-inf) = 0.0`, and `cdf(nan) = nan`. -/
noncomputable def norm_cdf_f : FVal → FVal
  | .fin x => .fin (norm_cdf x)
  | .pinf => .fin 1
  | .ninf => .fin 0
  | .nan => .nan

/-- IEEE-754 multiplication on special values: NaN propagates,
`(±inf) * x` carries the product of the signs, and `(±inf) * 0 = nan`. -/
noncomputable def FVal.mul : FVal → FVal → FVal
  | .fin a, .fin b => .fin (a * b)
  | .nan, _ => .nan
  | _, .nan => .nan
  | .fin a, .pinf => if a = 0 then .nan else if 0 < a then .pinf else .ninf
  | .fin a, .ninf => if a = 0 then .nan else if 0 < a then .ninf else .pinf
  | .pinf, .fin b => if b = 0 then .nan else if 0 < b then .pinf else .ninf
  | .ninf, .fin b => if b = 0 then .nan else if 0 < b then .ninf else .pinf
  | .pinf, .pinf => .pinf
  | .pinf, .ninf => .ninf
  | .ninf, .pinf => .ninf
  | .ninf, .ninf => .pinf

/-- IEEE-754 subtraction on special values: NaN propagates and
`inf - inf = nan`. -/
noncomputable def FVal.sub : FVal → FVal → FVal
  | .fin a, .fin b => .fin (a - b)
  | .nan, _ => .nan
  | _, .nan => .nan
  | .fin _, .pinf => .ninf
  | .fin _, .ninf => .pinf
  | .pinf, .fin _ => .pinf
  | .pinf, .pinf => .nan
  | .pinf, .ninf => .pinf
  | .ninf, .fin _ => .ninf
  | .ninf, .pinf => .ninf
  | .ninf, .ninf => .nan

/-- The hook `_calculate_call_option_price` evaluated with IEEE-754 special-value
semantics at the two divisions (the only operations in the hook that leave
the finite domain when `sigma * np.sqrt(T) = 0`; `np.log`, `np.exp` and the
remaining products stay finite for the positive `S`, `K` used below).  This
mirrors the hook term by term: `S * cdf(d1) - (K * exp(-r*T)) * cdf(d2)`. -/
noncomputable def BlackScholesModel.call_price_ieee
    (m : BlackScholesModel) : FVal :=
  FVal.sub
    (FVal.mul (FVal.fin m.S)
      (norm_cdf_f (fdiv
        (Real.log (m.S / m.K) + (m.r + 0.5 * m.sigma ^ 2) * m.T)
        (m.sigma * Real.sqrt m.T))))
    (FVal.mul (FVal.fin (m.K * Real.exp (-m.r * m.T)))
      (norm_cdf_f (fdiv
        (Real.log (m.S / m.K) + (m.r - 0.5 * m.sigma ^ 2) * m.T)
        (m.sigma * Real.sqrt m.T))))

lemma zero_maturity_call_nan_aux :
    (BlackScholesModel.init 100 100 0 0.05 0.2).call_price_ieee
      = FVal.nan := by
  have h0 : BlackScholesModel.init 100 100 0 0.05 0.2
      = BlackScholesModel.mk 100 100 0 0.05 0.2 := by
    rw [BlackScholesModel.init, show (0:ℝ)/365 = 0 by norm_num]
  rw [h0, BlackScholesModel.call_price_ieee]
  norm_num [Real.sqrt_zero, Real.log_one, fdiv, norm_cdf_f, FVal.mul,
    FVal.sub]

/-- C8 counterexample: with `days_to_maturity = 0` (so `T = 0`) and
otherwise valid parameters, the call hook computes `0.0/0.0` and silently
evaluates to NaN — the value propagates through `norm.cdf` and the final
products — so pricing does not raise a labeled domain error, contradicting
the claim that it "does not silently return NaN". -/
theorem zero_maturity_pricing_returns_nan :
    (BlackScholesModel.init 100 100 0 0.05 0.2).call_price_ieee
      = FVal.nan :=
  zero_maturity_call_nan_aux

/-- C8 amended: the source performs no domain validation.  With
`days_to_maturity = 0` (and `S = K`) the division is `0.0/0.0` and the
call hook silently returns NaN; with `sigma = 0` (and `T > 0`, positive
`d1`/`d2` numerators) the division yields `+inf`, `norm.cdf(+inf) = 1`,
and the hook silently returns the finite value `S - K*exp(-r*T)` — in
neither case is any error raised. -/
theorem degenerate_inputs_price_silently :
    (BlackScholesModel.init 100 100 0 0.05 0.2).call_price_ieee
        = FVal.nan ∧
      (BlackScholesModel.init 100 100 365 0.05 0).call_price_ieee
        = FVal.fin (100 - 100 * Real.exp (-(0.05))) := by
  constructor
  · exact zero_maturity_call_nan_aux
  · have h0 : BlackScholesModel.init 100 100 365 0.05 0
        = BlackScholesModel.mk 100 100 1 0.05 0 := by
      rw [BlackScholesModel.init, show (365:ℝ)/365 = 1 by norm_num]
    rw [h0, BlackScholesModel.call_price_ieee]
    norm_num [Real.sqrt_one, Real.log_one, fdiv, norm_cdf_f, FVal.mul,
      FVal.sub]

/-- C10: passing an `OPTION_TYPE` enum member itself (rather than its
display string) to `calculate_option_price` matches neither branch, because
the dispatch compares the selector with the members' string values and a
Python enum member never equals a string; the sentinel `-1` is returned. -/
theorem enum_member_selector_returns_sentinel (m : OptionPricingModel)
    (t : OPTION_TYPE) :
    calculate_option_price m (Selector.enumMember t) = -1 :=
  rfl

end Okok
